import Mathlib

/-!
Verification of the TLV calculator protocol library (tcpmt).

Shallow embedding of the Rust sources:
  src/tlv.rs        : TLV frame codec and sequential frame iterator
  src/operation.rs  : arithmetic operation model (decode / encode / reduce / text parse)
  src/answer.rs     : response (accumulator + optional diagnostic) codec
  src/bin/tcpmtser.rs : per-connection session reducer loop

Machine integers are modelled as Nat / Int with explicit range conditions and
wrap-around written out where the source performs fixed-width arithmetic.
Rust functions that can panic are embedded with result type Option, where
none models a panic; a returned error value is some (Except.error e).
-/

deriving instance DecidableEq for Except

/- ### TLV frame codec (src/tlv.rs) -/

/-- Error type of the TLV codec, from enum TlvError in src/tlv.rs. -/
inductive TlvError where
  | TagUnknown
  | WrongFormat
  | ExcessiveLength
deriving DecidableEq, Repr

/-- Registered frame tags, from enum TlvType in src/tlv.rs. -/
inductive TlvType where
  | Sum
  | Sub
  | Mul
  | Div
  | Rem
  | Fact
  | Answer
  | Invalid
  | Numi64
deriving DecidableEq, Repr

/-- Numeric value of each tag, per the repr(u8) discriminants in src/tlv.rs. -/
def TlvType.toByte : TlvType → Nat
  | .Sum => 1
  | .Sub => 2
  | .Mul => 3
  | .Div => 4
  | .Rem => 5
  | .Fact => 6
  | .Answer => 10
  | .Invalid => 11
  | .Numi64 => 16

/-- Partial inverse of TlvType.toByte, the TryFromPrimitive conversion that
succeeds exactly on the registered discriminants 1-6, 10, 11, 16. -/
def tagOfByte : Nat → Option TlvType
  | 1 => some .Sum
  | 2 => some .Sub
  | 3 => some .Mul
  | 4 => some .Div
  | 5 => some .Rem
  | 6 => some .Fact
  | 10 => some .Answer
  | 11 => some .Invalid
  | 16 => some .Numi64
  | _ => none

/-- A decoded TLV frame, from struct Tlv in src/tlv.rs.  The length field is
the raw length byte; data is the payload view. -/
structure Tlv where
  tag : TlvType
  length : Nat
  data : List Nat
deriving DecidableEq, Repr

/-- Tlv::new from src/tlv.rs: fails with ExcessiveLength when the payload does
not fit in the u8 length byte. -/
def Tlv.new (tag : TlvType) (data : List Nat) : Except TlvError Tlv :=
  if data.length ≤ 255 then .ok ⟨tag, data.length, data⟩
  else .error .ExcessiveLength

/-- Tlv::encode from src/tlv.rs: tag byte, length byte, then the payload. -/
def Tlv.encode (t : Tlv) : List Nat :=
  t.tag.toByte :: t.length :: t.data

/-- TryFrom for byte slices, from src/tlv.rs lines 77-90.  The source computes
`bytes[1] + 2` in u8 arithmetic, so the sum wraps modulo 256 (release-profile
semantics); it then takes the slice `bytes[2 .. (2 + bytes[1]) % 256]`, which
panics when the wrapped end index is below the start index 2.  A panic is
modelled as none. -/
def tlvTryFrom : List Nat → Option (Except TlvError Tlv)
  | b0 :: b1 :: rest =>
    let e := (b1 + 2) % 256
    if e ≤ 2 + rest.length then
      match tagOfByte b0 with
      | none => some (.error .TagUnknown)
      | some tag =>
        if e < 2 then none
        else some (.ok ⟨tag, b1, rest.take (e - 2)⟩)
    else some (.error .WrongFormat)
  | _ => some (.error .WrongFormat)

theorem tlvTryFrom_ok_pos {buf : List Nat} {t : Tlv}
    (h : tlvTryFrom buf = some (.ok t)) : 1 ≤ buf.length := by
  match buf with
  | [] => simp [tlvTryFrom] at h
  | [b] => simp [tlvTryFrom] at h
  | b0 :: b1 :: rest => simp

/-- Iterator for TlvIterator from src/tlv.rs lines 92-115: starting at offset
0, decode a frame, advance by 2 + length, and stop at the first decode error.
A panic inside Tlv::try_from propagates, modelled by a none result. -/
def tlvIterRun (buf : List Nat) : Option (List Tlv) :=
  match h : tlvTryFrom buf with
  | none => none
  | some (.error _) => some []
  | some (.ok t) =>
    match tlvIterRun (buf.drop (2 + t.length)) with
    | none => none
    | some ts => some (t :: ts)
termination_by buf.length
decreasing_by
  have := tlvTryFrom_ok_pos h
  simp only [List.length_drop]
  omega

/- ### Operation model (src/operation.rs) -/

/-- Error type from enum OperationError in src/operation.rs.  The payload of
the data-carrying conversion variants is dropped; UnsupportedOperation keeps
the raw operator text it carries. -/
inductive OperationError where
  | UnsupportedOperation (sym : String)
  | Parse
  | NotEnoughData
  | InvalidParameter
  | ParseIntError
  | OverFlow
  | WrongDomain
  | Generic
deriving DecidableEq, Repr

/-- Operations, from enum Operation in src/operation.rs.  Operands are the i8
payload values of BinomialOperationData / MonomialOperationData, modelled as
integers (valid ones lie in [-128, 127]). -/
inductive Operation where
  | Sum (a b : Int)
  | Sub (a b : Int)
  | Mul (a b : Int)
  | Div (a b : Int)
  | Rem (a b : Int)
  | Fact (a : Int)
deriving DecidableEq, Repr

/-- An Operation whose operands are representable as i8, as produced by frame
decoding or text parsing. -/
def Operation.Valid : Operation → Prop
  | .Sum a b | .Sub a b | .Mul a b | .Div a b | .Rem a b =>
      -128 ≤ a ∧ a ≤ 127 ∧ -128 ≤ b ∧ b ≤ 127
  | .Fact a => -128 ≤ a ∧ a ≤ 127

instance : DecidablePred Operation.Valid := by
  intro op
  cases op <;> simp only [Operation.Valid] <;> infer_instance

/-- The `a as u8` cast of an i8 operand: its two's-complement byte. -/
def byteOfI8 (a : Int) : Nat := (a % 256).toNat

/-- i8::from_be_bytes on a single byte: two's-complement interpretation. -/
def i8OfByte (b : Nat) : Int := if b < 128 then (b : Int) else (b : Int) - 256

theorem i8OfByte_byteOfI8 {a : Int} (h1 : -128 ≤ a) (h2 : a ≤ 127) :
    i8OfByte (byteOfI8 a) = a := by
  unfold i8OfByte byteOfI8
  omega

/-- i16::checked_add on widened i8 operands: some exactly when the exact sum
is representable as i16. -/
def i16CheckedAdd (a b : Int) : Option Int :=
  if -32768 ≤ a + b ∧ a + b ≤ 32767 then some (a + b) else none

/-- i16::checked_sub on widened i8 operands. -/
def i16CheckedSub (a b : Int) : Option Int :=
  if -32768 ≤ a - b ∧ a - b ≤ 32767 then some (a - b) else none

/-- i16::checked_mul on widened i8 operands. -/
def i16CheckedMul (a b : Int) : Option Int :=
  if -32768 ≤ a * b ∧ a * b ≤ 32767 then some (a * b) else none

/-- i8::checked_div: none when the divisor is zero or the truncated quotient
overflows i8.  Int.tdiv is Rust division (truncation toward zero). -/
def i8CheckedDiv (a b : Int) : Option Int :=
  if b = 0 then none
  else if a.tdiv b < -128 ∨ 127 < a.tdiv b then none
  else some (a.tdiv b)

/-- i8::checked_rem: none when the divisor is zero or the corresponding
division overflows i8.  Int.tmod is Rust remainder (sign of the dividend). -/
def i8CheckedRem (a b : Int) : Option Int :=
  if b = 0 then none
  else if a.tdiv b < -128 ∨ 127 < a.tdiv b then none
  else some (a.tmod b)

/-- i64::checked_mul: some exactly when the exact product is representable. -/
def i64CheckedMul (x y : Int) : Option Int :=
  if -(2 ^ 63) ≤ x * y ∧ x * y ≤ 2 ^ 63 - 1 then some (x * y) else none

/-- The factorial fold of Operation::reduce for a positive operand:
`(1..=a).fold(Ok(1), checked_mul)`, keeping the first OverFlow. -/
def factFold (a : Int) : Except OperationError Int :=
  (List.range a.toNat).foldl
    (fun acc i =>
      match acc with
      | .ok n =>
        match i64CheckedMul n ((i : Int) + 1) with
        | some v => .ok v
        | none => .error .OverFlow
      | e => e)
    (.ok 1)

/-- Operation::reduce from src/operation.rs lines 118-147. -/
def Operation.reduce : Operation → Except OperationError Int
  | .Sum a b =>
    match i16CheckedAdd a b with
    | some v => .ok v
    | none => .error .OverFlow
  | .Sub a b =>
    match i16CheckedSub a b with
    | some v => .ok v
    | none => .error .OverFlow
  | .Mul a b =>
    match i16CheckedMul a b with
    | some v => .ok v
    | none => .error .OverFlow
  | .Div a b =>
    match i8CheckedDiv a b with
    | some v => .ok v
    | none => .error .WrongDomain
  | .Rem a b =>
    match i8CheckedRem a b with
    | some v => .ok v
    | none => .error .WrongDomain
  | .Fact a =>
    if a = 0 then .ok 1
    else if 0 < a then factFold a
    else .error .WrongDomain

/-- The tag under which each operation is encoded. -/
def Operation.tag : Operation → TlvType
  | .Sum _ _ => .Sum
  | .Sub _ _ => .Sub
  | .Mul _ _ => .Mul
  | .Div _ _ => .Div
  | .Rem _ _ => .Rem
  | .Fact _ => .Fact

/-- The payload bytes of each operation: BinomialOperationData::encode and
MonomialOperationData::encode from src/operation.rs. -/
def Operation.payload : Operation → List Nat
  | .Sum a b | .Sub a b | .Mul a b | .Div a b | .Rem a b =>
      [byteOfI8 a, byteOfI8 b]
  | .Fact a => [byteOfI8 a]

/-- Operation::encode from src/operation.rs lines 148-157:
`Tlv::new(tag, payload).unwrap().encode()`; an unwrap panic is none. -/
def Operation.encode (op : Operation) : Option (List Nat) :=
  match Tlv.new op.tag op.payload with
  | .ok t => some t.encode
  | .error _ => none

/-- TryFrom of a Tlv frame, src/operation.rs lines 160-186: each arithmetic
tag requires its exact length (2 for binary, 1 for factorial); the slice
conversion re-checks the payload size; everything else is the generic
malformed-operation error. -/
def operationTryFrom (t : Tlv) : Except OperationError Operation :=
  match t.tag with
  | .Sum =>
    if t.length = 2 then
      match t.data with
      | [x, y] => .ok (.Sum (i8OfByte x) (i8OfByte y))
      | _ => .error .NotEnoughData
    else .error .Generic
  | .Sub =>
    if t.length = 2 then
      match t.data with
      | [x, y] => .ok (.Sub (i8OfByte x) (i8OfByte y))
      | _ => .error .NotEnoughData
    else .error .Generic
  | .Mul =>
    if t.length = 2 then
      match t.data with
      | [x, y] => .ok (.Mul (i8OfByte x) (i8OfByte y))
      | _ => .error .NotEnoughData
    else .error .Generic
  | .Div =>
    if t.length = 2 then
      match t.data with
      | [x, y] => .ok (.Div (i8OfByte x) (i8OfByte y))
      | _ => .error .NotEnoughData
    else .error .Generic
  | .Rem =>
    if t.length = 2 then
      match t.data with
      | [x, y] => .ok (.Rem (i8OfByte x) (i8OfByte y))
      | _ => .error .NotEnoughData
    else .error .Generic
  | .Fact =>
    if t.length = 1 then
      match t.data with
      | [x] => .ok (.Fact (i8OfByte x))
      | _ => .error .NotEnoughData
    else .error .Generic
  | _ => .error .Generic

/- ### Response model (src/answer.rs) -/

/-- Library error type, from enum TCPLibError in src/lib.rs; a Utf8 variant
covers the str::from_utf8 failure propagated in src/answer.rs line 124. -/
inductive TCPLibError where
  | OperationError
  | UnsupportedOperation (sym : String)
  | Parse
  | NotEnoughData
  | InvalidParameter
  | ParseIntError
  | Utf8
  | Generic
deriving DecidableEq, Repr

/-- i64::to_be_bytes: eight big-endian bytes of the two's-complement value. -/
def i64ToBeBytes (v : Int) : List Nat :=
  let n := (v % (2 ^ 64)).toNat
  [n / 2 ^ 56 % 256, n / 2 ^ 48 % 256, n / 2 ^ 40 % 256, n / 2 ^ 32 % 256,
   n / 2 ^ 24 % 256, n / 2 ^ 16 % 256, n / 2 ^ 8 % 256, n % 256]

/-- i64::from_be_bytes on an 8-byte payload. -/
def i64FromBeBytes (bs : List Nat) : Int :=
  let n : Nat := bs.foldl (fun acc b => acc * 256 + b) 0
  if n < 2 ^ 63 then (n : Int) else (n : Int) - 2 ^ 64

theorem i64FromBeBytes_toBeBytes {v : Int} (h1 : -(2 ^ 63) ≤ v)
    (h2 : v < 2 ^ 63) : i64FromBeBytes (i64ToBeBytes v) = v := by
  unfold i64ToBeBytes i64FromBeBytes
  simp only [List.foldl]
  omega

/-- Validity of a byte sequence as UTF-8 (the check done by str::from_utf8):
RFC 3629 well-formedness, with surrogate and over-long encodings rejected. -/
def isValidUtf8 : List Nat → Bool
  | [] => true
  | b :: r =>
    if b ≤ 0x7F then isValidUtf8 r
    else if b ≤ 0xC1 then false
    else if b ≤ 0xDF then
      match r with
      | c1 :: r1 => (0x80 ≤ c1 && c1 ≤ 0xBF) && isValidUtf8 r1
      | [] => false
    else if b ≤ 0xEF then
      match r with
      | c1 :: c2 :: r2 =>
        (if b = 0xE0 then 0xA0 ≤ c1 && c1 ≤ 0xBF
         else if b = 0xED then 0x80 ≤ c1 && c1 ≤ 0x9F
         else 0x80 ≤ c1 && c1 ≤ 0xBF)
          && (0x80 ≤ c2 && c2 ≤ 0xBF) && isValidUtf8 r2
      | _ => false
    else if b ≤ 0xF4 then
      match r with
      | c1 :: c2 :: c3 :: r3 =>
        (if b = 0xF0 then 0x90 ≤ c1 && c1 ≤ 0xBF
         else if b = 0xF4 then 0x80 ≤ c1 && c1 ≤ 0x8F
         else 0x80 ≤ c1 && c1 ≤ 0xBF)
          && (0x80 ≤ c2 && c2 ≤ 0xBF) && (0x80 ≤ c3 && c3 ≤ 0xBF)
          && isValidUtf8 r3
      | _ => false
    else false

/-- A response, from struct Answer in src/answer.rs: a 64-bit accumulator and
an optional diagnostic.  The diagnostic Box<str> is modelled by its UTF-8
bytes. -/
structure Answer where
  acc : Int
  message : Option (List Nat)
deriving DecidableEq, Repr

/-- Numberi64::try_from(&Tlv) from src/answer.rs lines 76-86: requires tag
Numi64 and length 8; the array conversion re-checks the payload size. -/
def numberi64TryFrom (t : Tlv) : Except TCPLibError Int :=
  if t.tag = TlvType.Numi64 ∧ t.length = 8 then
    if t.data.length = 8 then .ok (i64FromBeBytes t.data)
    else .error .NotEnoughData
  else .error .Generic

/-- InvalidOperation::try_from(&Tlv) from src/answer.rs lines 119-129:
requires tag Invalid, positive length, and a valid UTF-8 payload. -/
def invalidOperationTryFrom (t : Tlv) : Except TCPLibError (List Nat) :=
  if t.tag = TlvType.Invalid ∧ 0 < t.length then
    if isValidUtf8 t.data then .ok t.data else .error .Utf8
  else .error .Generic

/-- Numberi64::encode from src/answer.rs lines 96-102. -/
def numberi64Encode (v : Int) : Option (List Nat) :=
  match Tlv.new TlvType.Numi64 (i64ToBeBytes v) with
  | .ok t => some t.encode
  | .error _ => none

/-- InvalidOperation::encode from src/answer.rs lines 131-137; the unwrap
panics (none) when the text exceeds 255 bytes. -/
def invalidOperationEncode (m : List Nat) : Option (List Nat) :=
  match Tlv.new TlvType.Invalid m with
  | .ok t => some t.encode
  | .error _ => none

/-- The body of the for loop in Answer::try_from, src/answer.rs lines 46-54:
walk the sequential reader over the payload, overwriting the message on each
Invalid sub-frame and the accumulator on each Numi64 sub-frame, propagating
the first conversion error; any other tag is skipped.  The reader stops at
the first decode failure; a decode panic propagates (none). -/
def answerLoop (buf : List Nat) (message : Option (List Nat))
    (acc : Option Int) :
    Option (Except TCPLibError (Option (List Nat) × Option Int)) :=
  match h : tlvTryFrom buf with
  | none => none
  | some (.error _) => some (.ok (message, acc))
  | some (.ok t) =>
    match t.tag with
    | TlvType.Numi64 =>
      match numberi64TryFrom t with
      | .error e => some (.error e)
      | .ok v => answerLoop (buf.drop (2 + t.length)) message (some v)
    | TlvType.Invalid =>
      match invalidOperationTryFrom t with
      | .error e => some (.error e)
      | .ok m => answerLoop (buf.drop (2 + t.length)) (some m) acc
    | _ => answerLoop (buf.drop (2 + t.length)) message acc
termination_by buf.length
decreasing_by
  all_goals
    have := tlvTryFrom_ok_pos h
    simp only [List.length_drop]
    omega

/-- Answer::try_from(Tlv) from src/answer.rs lines 41-62: requires tag Answer
and positive length, runs the loop, and fails with Generic when no
accumulator sub-frame was seen. -/
def answerTryFrom (t : Tlv) : Option (Except TCPLibError Answer) :=
  if t.tag = TlvType.Answer ∧ 0 < t.length then
    match answerLoop t.data none none with
    | none => none
    | some (.error e) => some (.error e)
    | some (.ok (m, some a)) => some (.ok ⟨a, m⟩)
    | some (.ok (_, none)) => some (.error .Generic)
  else some (.error .Generic)

/-- Field order of an encoded response.  Modelled from the spec: the
AnswerOrder enum (MessageFirst | MessageLast) is referenced by
src/bin/tcpmtser.rs but its declaration is not among the sources. -/
inductive AnswerOrder where
  | MessageFirst
  | MessageLast
deriving DecidableEq, Repr

/-- Modelled from the spec: Answer::encode taking an order argument, called
by src/bin/tcpmtser.rs but not among the sources; per spec section 4.3 it
builds the Accumulator sub-frame and, if present, the Diagnostic sub-frame,
concatenates the two encodings in the given order, and wraps the result in
one ResponseContainer (Answer) frame.  MessageFirst coincides with
Answer::encode of src/answer.rs lines 32-39, which puts the diagnostic
first.  The unwraps of Tlv::new panic (none) on oversized payloads. -/
def answerEncode (a : Answer) (order : AnswerOrder) : Option (List Nat) :=
  match (match a.message with
         | none => some []
         | some m => invalidOperationEncode m) with
  | none => none
  | some mdata =>
    match numberi64Encode a.acc with
    | none => none
    | some adata =>
      let data := match order with
        | .MessageFirst => mdata ++ adata
        | .MessageLast => adata ++ mdata
      match Tlv.new TlvType.Answer data with
      | .ok t => some t.encode
      | .error _ => none

/- ### Session reducer (src/bin/tcpmtser.rs) -/

/-- Display text of each OperationError, per its thiserror attributes. -/
def errMessage : OperationError → String
  | .UnsupportedOperation sym => "Unsupported operation " ++ sym
  | .Parse => "Could not parse operation"
  | .NotEnoughData => "Not enough data in TLV"
  | .InvalidParameter => "Invalid parameter"
  | .ParseIntError => "Could not parse integer"
  | .OverFlow => "Result is out of range"
  | .WrongDomain => "Wrong domain"
  | .Generic => "Something wrong"

/-- i64::saturating_add, clamping to the i64 range. -/
def i64SatAdd (a b : Int) : Int :=
  if a + b < -(2 ^ 63) then -(2 ^ 63)
  else if 2 ^ 63 - 1 < a + b then 2 ^ 63 - 1
  else a + b

/-- One step of the per-connection loop of src/bin/tcpmtser.rs lines 69-83 on
an already decoded Operation: evaluate it; on success saturating-add into the
accumulator and answer with the new value and no diagnostic; on failure keep
the accumulator and answer with the error text.  Returns the new accumulator
and the emitted response (accumulator value, optional diagnostic). -/
def processRequest (acc : Int) (op : Operation) :
    Int × (Int × Option String) :=
  match op.reduce with
  | .ok r =>
    let acc2 := i64SatAdd acc r
    (acc2, (acc2, none))
  | .error e => (acc, (acc, some (errMessage e)))

/-- The session over a list of decoded requests: each request is processed in
arrival order against the running accumulator, emitting one response each. -/
def sessionRun (acc : Int) : List Operation → List (Int × Option String)
  | [] => []
  | op :: ops =>
    let s := processRequest acc op
    s.2 :: sessionRun s.1 ops

/- ### Text parsing (Operation::from_str, src/operation.rs lines 201-236) -/

/-- The regex class backslash-s, restricted to its ASCII members (the regex
crate would additionally accept Unicode whitespace). -/
def isSpaceChar (c : Char) : Bool :=
  c = ' ' || c = '\t' || c = '\n' || c = '\r' ||
  c = Char.ofNat 11 || c = Char.ofNat 12

/-- The regex class backslash-d, restricted to its ASCII members (the regex
crate would additionally accept Unicode decimal digits, which i8::from_str
then rejects). -/
def isDigitChar (c : Char) : Bool := '0' ≤ c && c ≤ '9'

/-- The operator character class of the regex in Operation::from_str. -/
def isOpChar (c : Char) : Bool :=
  c = '+' || c = '-' || c = '*' || c = '×' || c = 'x' ||
  c = '/' || c = '÷' || c = '%' || c = '!'

/-- One signed integer token of the regex: an optional minus sign followed by
at least one digit, matched greedily; returns the token and the rest. -/
def numToken (s : List Char) : Option (List Char × List Char) :=
  match s with
  | '-' :: rest =>
    let ds := rest.takeWhile isDigitChar
    if ds.isEmpty then none else some ('-' :: ds, rest.dropWhile isDigitChar)
  | _ =>
    let ds := s.takeWhile isDigitChar
    if ds.isEmpty then none else some (ds, s.dropWhile isDigitChar)

/-- The anchored regex of Operation::from_str applied to the input: capture
group 1 is the first signed integer, group 2 the operator character, group 3
the optional second signed integer, with arbitrary whitespace around the
tokens.  none when the input does not match.  The single left-to-right
greedy pass is faithful because no backtracking can succeed: a digit run is
never followed by a digit, the operator class is disjoint from sign and
digits, and a non-empty group 3 starts with a sign or digit, which the
closing whitespace-only tail can never absorb. -/
def regexCaptures (s : List Char) :
    Option (List Char × Char × Option (List Char)) :=
  match numToken (s.dropWhile isSpaceChar) with
  | none => none
  | some (g1, s2) =>
    match s2.dropWhile isSpaceChar with
    | [] => none
    | c :: s4 =>
      if isOpChar c then
        let s5 := s4.dropWhile isSpaceChar
        match numToken s5 with
        | some (g3, s6) =>
          if (s6.dropWhile isSpaceChar).isEmpty then some (g1, c, some g3)
          else none
        | none =>
          if (s5.dropWhile isSpaceChar).isEmpty then some (g1, c, none)
          else none
      else none

/-- i8::from_str on a regex number token: digits to a value, failing with the
integer-parse error when the value is outside the i8 range. -/
def parseI8 (cs : List Char) : Except OperationError Int :=
  let (neg, ds) := match cs with
    | '-' :: rest => (true, rest)
    | _ => (false, cs)
  let n : Nat := ds.foldl (fun acc c => acc * 10 + (c.toNat - '0'.toNat)) 0
  if neg then
    if n ≤ 128 then .ok (-(n : Int)) else .error .ParseIntError
  else
    if n ≤ 127 then .ok (n : Int) else .error .ParseIntError

/-- The operator dispatch of Operation::from_str, src/operation.rs lines
223-232: each arithmetic arm is guarded by the presence (binary) or absence
(factorial) of the second capture; a guard failure falls through to the
UnsupportedOperation arm carrying the operator text. -/
def dispatchOp (a b : Int) (c : Char) (hasB : Bool) :
    Except OperationError Operation :=
  if c = '+' ∧ hasB then .ok (.Sum a b)
  else if c = '-' ∧ hasB then .ok (.Sub a b)
  else if (c = '*' ∨ c = '×' ∨ c = 'x') ∧ hasB then .ok (.Mul a b)
  else if (c = '/' ∨ c = '÷') ∧ hasB then .ok (.Div a b)
  else if c = '%' ∧ hasB then .ok (.Rem a b)
  else if c = '!' ∧ hasB = false then .ok (.Fact a)
  else .error (.UnsupportedOperation (String.mk [c]))

/-- Operation::from_str, src/operation.rs lines 204-235: match the regex
(Parse error on failure), parse the operand literals (second operand defaults
to 0 when absent), then dispatch on the operator. -/
def operationFromStr (s : List Char) : Except OperationError Operation :=
  match regexCaptures s with
  | none => .error .Parse
  | some (g1, c, g3) =>
    match parseI8 g1 with
    | .error e => .error e
    | .ok a =>
      match g3 with
      | some gb =>
        match parseI8 gb with
        | .error e => .error e
        | .ok b => dispatchOp a b c true
      | none => dispatchOp a 0 c false

/- ### Frame codec lemmas -/

theorem tlvTryFrom_short {bytes : List Nat} (h : bytes.length < 2) :
    tlvTryFrom bytes = some (.error .WrongFormat) := by
  match bytes with
  | [] => rfl
  | [b] => rfl
  | b0 :: b1 :: rest => simp at h; omega

/-- Behaviour of the decoder on buffers whose length byte stays clear of the
u8 wrap-around: exactly the specified format check, tag check, and view. -/
theorem tlvTryFrom_spec (b0 b1 : Nat) (rest : List Nat) (hb1 : b1 ≤ 253) :
    tlvTryFrom (b0 :: b1 :: rest) =
      if rest.length < b1 then some (.error .WrongFormat)
      else
        match tagOfByte b0 with
        | none => some (.error .TagUnknown)
        | some tag => some (.ok ⟨tag, b1, rest.take b1⟩) := by
  unfold tlvTryFrom
  have he : (b1 + 2) % 256 = b1 + 2 := Nat.mod_eq_of_lt (by omega)
  simp only [he]
  rcases Nat.lt_or_ge rest.length b1 with h | h
  · rw [if_neg (by omega), if_pos (by omega)]
  · rw [if_pos (by omega), if_neg (by omega)]
    match tagOfByte b0 with
    | none => rfl
    | some tag => simp

/-- Decoding a well-formed frame at the head of a buffer: the frame is
returned as a view of its payload, untouched by what follows it. -/
theorem tlvTryFrom_frame (t n : Nat) (payload rest : List Nat)
    (tag : TlvType) (htag : tagOfByte t = some tag)
    (hlen : payload.length = n) (hn : n ≤ 253) :
    tlvTryFrom (t :: n :: (payload ++ rest)) = some (.ok ⟨tag, n, payload⟩) := by
  rw [tlvTryFrom_spec t n (payload ++ rest) hn]
  rw [if_neg (by simp [hlen])]
  rw [htag]
  have : (payload ++ rest).take n = payload := by
    rw [← hlen]
    exact List.take_left payload rest
  simp [this]

theorem drop_frame (t n : Nat) (payload rest : List Nat)
    (hlen : payload.length = n) :
    (t :: n :: (payload ++ rest)).drop (2 + n) = rest := by
  have : (2 + n) = (t :: n :: payload).length := by simp [hlen]; omega
  calc (t :: n :: (payload ++ rest)).drop (2 + n)
      = ((t :: n :: payload) ++ rest).drop (t :: n :: payload).length := by
        rw [← this]; simp
    _ = rest := List.drop_left _ _

/-- Claim C3: Tlv decoding is claimed total and, in particular, well defined
for every length byte in [0, 255]; but on the buffer [16, 255] (registered
tag Numi64, length byte 255) the source wraps 255 + 2 in u8 arithmetic and
takes the reversed slice bytes[2..1], which panics; length byte 254 panics
the same way.  The panic is the none result of the embedded decoder. -/
theorem tlv_decode_panics_on_wrapped_length :
    tlvTryFrom [16, 255] = none ∧ tlvTryFrom [16, 254] = none := by
  constructor <;> rfl

/-- Claim C8: the sequential reader is claimed to end its sequence at the
first decode failure for every buffer; but on [1, 2, 5, 5, 16, 255] it
yields the frame Sum(5, 5) and then panics inside Tlv::try_from instead of
ending the sequence. -/
theorem tlv_iterator_panics_on_wrapped_length :
    tlvIterRun [1, 2, 5, 5, 16, 255] = none := by
  simp [tlvIterRun, tlvTryFrom, tagOfByte]

/- ### Operation round trip (claim C1) -/

/-- Claim C1: for every Operation with i8 operands, decoding the bytes
produced by encoding yields the same operation back:
Operation::try_from(Tlv::try_from(&op.encode()).unwrap()) == Ok(op). -/
theorem operation_encode_decode_roundtrip (op : Operation) (h : op.Valid) :
    ∃ bs t, op.encode = some bs ∧ tlvTryFrom bs = some (.ok t) ∧
      operationTryFrom t = .ok op := by
  cases op with
  | Sum a b =>
    obtain ⟨ha1, ha2, hb1, hb2⟩ := h
    refine ⟨[1, 2, byteOfI8 a, byteOfI8 b],
      ⟨.Sum, 2, [byteOfI8 a, byteOfI8 b]⟩, rfl, ?_, ?_⟩
    · rw [tlvTryFrom_spec _ _ _ (by omega)]; simp [tagOfByte]
    · simp [operationTryFrom, i8OfByte_byteOfI8 ha1 ha2,
        i8OfByte_byteOfI8 hb1 hb2]
  | Sub a b =>
    obtain ⟨ha1, ha2, hb1, hb2⟩ := h
    refine ⟨[2, 2, byteOfI8 a, byteOfI8 b],
      ⟨.Sub, 2, [byteOfI8 a, byteOfI8 b]⟩, rfl, ?_, ?_⟩
    · rw [tlvTryFrom_spec _ _ _ (by omega)]; simp [tagOfByte]
    · simp [operationTryFrom, i8OfByte_byteOfI8 ha1 ha2,
        i8OfByte_byteOfI8 hb1 hb2]
  | Mul a b =>
    obtain ⟨ha1, ha2, hb1, hb2⟩ := h
    refine ⟨[3, 2, byteOfI8 a, byteOfI8 b],
      ⟨.Mul, 2, [byteOfI8 a, byteOfI8 b]⟩, rfl, ?_, ?_⟩
    · rw [tlvTryFrom_spec _ _ _ (by omega)]; simp [tagOfByte]
    · simp [operationTryFrom, i8OfByte_byteOfI8 ha1 ha2,
        i8OfByte_byteOfI8 hb1 hb2]
  | Div a b =>
    obtain ⟨ha1, ha2, hb1, hb2⟩ := h
    refine ⟨[4, 2, byteOfI8 a, byteOfI8 b],
      ⟨.Div, 2, [byteOfI8 a, byteOfI8 b]⟩, rfl, ?_, ?_⟩
    · rw [tlvTryFrom_spec _ _ _ (by omega)]; simp [tagOfByte]
    · simp [operationTryFrom, i8OfByte_byteOfI8 ha1 ha2,
        i8OfByte_byteOfI8 hb1 hb2]
  | Rem a b =>
    obtain ⟨ha1, ha2, hb1, hb2⟩ := h
    refine ⟨[5, 2, byteOfI8 a, byteOfI8 b],
      ⟨.Rem, 2, [byteOfI8 a, byteOfI8 b]⟩, rfl, ?_, ?_⟩
    · rw [tlvTryFrom_spec _ _ _ (by omega)]; simp [tagOfByte]
    · simp [operationTryFrom, i8OfByte_byteOfI8 ha1 ha2,
        i8OfByte_byteOfI8 hb1 hb2]
  | Fact a =>
    obtain ⟨ha1, ha2⟩ := h
    refine ⟨[6, 1, byteOfI8 a], ⟨.Fact, 1, [byteOfI8 a]⟩, rfl, ?_, ?_⟩
    · rw [tlvTryFrom_spec _ _ _ (by omega)]; simp [tagOfByte]
    · simp [operationTryFrom, i8OfByte_byteOfI8 ha1 ha2]

theorem operation_encode_decode_roundtrip_witness :
    ∃ bs t, (Operation.Sum 127 (-1)).encode = some bs ∧
      tlvTryFrom bs = some (.ok t) ∧
      operationTryFrom t = .ok (Operation.Sum 127 (-1)) :=
  operation_encode_decode_roundtrip (Operation.Sum 127 (-1)) (by decide)

/- ### Widened checked arithmetic (claim C10) -/

/-- Claim C10: for i8 operands, Sum, Sub and Mul always reduce to the exact
mathematical result; the widening to i16 makes the OverFlow branch of these
three arms unreachable. -/
theorem sum_sub_mul_always_exact (a b : Int)
    (ha1 : -128 ≤ a) (ha2 : a ≤ 127) (hb1 : -128 ≤ b) (hb2 : b ≤ 127) :
    (Operation.Sum a b).reduce = .ok (a + b) ∧
    (Operation.Sub a b).reduce = .ok (a - b) ∧
    (Operation.Mul a b).reduce = .ok (a * b) := by
  refine ⟨?_, ?_, ?_⟩
  · simp only [Operation.reduce, i16CheckedAdd]
    rw [if_pos (by omega)]
  · simp only [Operation.reduce, i16CheckedSub]
    rw [if_pos (by omega)]
  · simp only [Operation.reduce, i16CheckedMul]
    have h1 : (0 : Int) ≤ (a + 128) * (b + 128) :=
      mul_nonneg (by linarith) (by linarith)
    have h2 : (0 : Int) ≤ (127 - a) * (127 - b) :=
      mul_nonneg (by linarith) (by linarith)
    have h3 : (0 : Int) ≤ (a + 128) * (127 - b) :=
      mul_nonneg (by linarith) (by linarith)
    have h4 : (0 : Int) ≤ (127 - a) * (b + 128) :=
      mul_nonneg (by linarith) (by linarith)
    rw [if_pos (by constructor <;> nlinarith)]

theorem sum_sub_mul_always_exact_witness :
    (Operation.Mul 10 10).reduce = .ok 100 := by
  have h := sum_sub_mul_always_exact 10 10 (by decide) (by decide)
    (by decide) (by decide)
  simpa using h.2.2

/- ### Factorial evaluation (claim C5) -/

set_option maxRecDepth 4000 in
theorem fact_reduce_bounded : ∀ a ∈ Finset.Icc (-128 : Int) 127,
    Operation.reduce (.Fact a) =
      (if a < 0 then .error .WrongDomain
       else if (Nat.factorial a.toNat : Int) ≤ 2 ^ 63 - 1 then
         .ok ((Nat.factorial a.toNat : Int))
       else .error .OverFlow) := by decide

/-- Claim C5: Fact(0) reduces to 1, Fact(a) for negative a is the WrongDomain
error, and Fact(a) for positive a is the factorial of a when that value is
representable as i64 and the OverFlow error otherwise (the iterative checked
product fails exactly when the final factorial exceeds the i64 range, the
partial products being the increasing factorials below it). -/
theorem fact_reduce_correct (a : Int) (h1 : -128 ≤ a) (h2 : a ≤ 127) :
    (Operation.Fact a).reduce =
      (if a < 0 then .error .WrongDomain
       else if (Nat.factorial a.toNat : Int) ≤ 2 ^ 63 - 1 then
         .ok ((Nat.factorial a.toNat : Int))
       else .error .OverFlow) :=
  fact_reduce_bounded a (Finset.mem_Icc.mpr ⟨h1, h2⟩)

theorem fact_reduce_correct_witness :
    (Operation.Fact 5).reduce = .ok 120 :=
  (fact_reduce_correct 5 (by decide) (by decide)).trans (by decide)

/- ### Division and remainder domain (claim C6) -/

theorem tdiv_overflow_iff (a b : Int)
    (ha1 : -128 ≤ a) (ha2 : a ≤ 127) (hb1 : -128 ≤ b) (hb2 : b ≤ 127)
    (hb : b ≠ 0) :
    (a.tdiv b < -128 ∨ 127 < a.tdiv b) ↔ (a = -128 ∧ b = -1) := by
  constructor
  · intro hq
    have h1 := Int.natAbs_tdiv a b
    rcases Nat.lt_or_ge b.natAbs 2 with h2 | h2
    · have hb1' : b = 1 ∨ b = -1 := by omega
      rcases hb1' with rfl | rfl
      · rw [Int.tdiv_one] at hq; omega
      · rw [Int.tdiv_neg, Int.tdiv_one] at hq
        exact ⟨by omega, rfl⟩
    · exfalso
      have h3 : a.natAbs / b.natAbs ≤ a.natAbs / 2 :=
        Nat.div_le_div_left h2 (by omega)
      have h4 : a.natAbs / 2 ≤ 64 := by omega
      have h5 : (a.tdiv b).natAbs ≤ 64 := by
        rw [h1]; exact le_trans h3 h4
      omega
  · rintro ⟨rfl, rfl⟩
    decide

/-- Claim C6: Div(a, b) and Rem(a, b) on i8 operands reduce to the
WrongDomain error exactly when b = 0 or (a, b) = (-128, -1), and otherwise
to the truncated quotient (Int.tdiv) and remainder (Int.tmod). -/
theorem div_rem_reduce_correct (a b : Int)
    (ha1 : -128 ≤ a) (ha2 : a ≤ 127) (hb1 : -128 ≤ b) (hb2 : b ≤ 127) :
    ((Operation.Div a b).reduce = .error .WrongDomain ↔
      (b = 0 ∨ (a = -128 ∧ b = -1))) ∧
    ((Operation.Rem a b).reduce = .error .WrongDomain ↔
      (b = 0 ∨ (a = -128 ∧ b = -1))) ∧
    (¬(b = 0 ∨ (a = -128 ∧ b = -1)) →
      (Operation.Div a b).reduce = .ok (a.tdiv b) ∧
      (Operation.Rem a b).reduce = .ok (a.tmod b)) := by
  by_cases hb : b = 0
  · subst hb
    simp [Operation.reduce, i8CheckedDiv, i8CheckedRem]
  · have key := tdiv_overflow_iff a b ha1 ha2 hb1 hb2 hb
    by_cases hov : a.tdiv b < -128 ∨ 127 < a.tdiv b
    · have hae := key.mp hov
      simp [Operation.reduce, i8CheckedDiv, i8CheckedRem, hb, hov, hae.1,
        hae.2]
    · have hrhs : ¬(a = -128 ∧ b = -1) := fun hc => hov (key.mpr hc)
      simp [Operation.reduce, i8CheckedDiv, i8CheckedRem, hb, hov, hrhs]

theorem div_rem_reduce_correct_witness :
    (Operation.Div 100 0).reduce = .error .WrongDomain ∧
    (Operation.Div (-128) (-1)).reduce = .error .WrongDomain ∧
    (Operation.Div 100 3).reduce = .ok 33 := by
  refine ⟨?_, ?_, ?_⟩
  · exact (div_rem_reduce_correct 100 0 (by decide) (by decide) (by decide)
      (by decide)).1.mpr (Or.inl rfl)
  · exact (div_rem_reduce_correct (-128) (-1) (by decide) (by decide)
      (by decide) (by decide)).1.mpr (Or.inr ⟨rfl, rfl⟩)
  · have h := (div_rem_reduce_correct 100 3 (by decide) (by decide)
      (by decide) (by decide)).2.2 (by decide)
    simpa using h.1

/- ### Session reducer (claim C4) -/

/-- Claim C4: one session step on a decoded request: on successful
evaluation the accumulator becomes its saturating sum with the result and
the response carries the new value with no diagnostic; on failed evaluation
the accumulator is unchanged and the response carries it together with the
error text.  The session emits exactly one response per request, in request
order. -/
theorem session_reducer_step (acc : Int) (op : Operation)
    (ops : List Operation) :
    (∀ r, op.reduce = .ok r →
      processRequest acc op = (i64SatAdd acc r, (i64SatAdd acc r, none))) ∧
    (∀ e, op.reduce = .error e →
      processRequest acc op = (acc, (acc, some (errMessage e)))) ∧
    sessionRun acc (op :: ops) =
      (processRequest acc op).2 ::
        sessionRun (processRequest acc op).1 ops ∧
    (sessionRun acc ops).length = ops.length := by
  refine ⟨?_, ?_, rfl, ?_⟩
  · intro r hr
    simp [processRequest, hr]
  · intro e he
    simp [processRequest, he]
  · induction ops generalizing acc with
    | nil => rfl
    | cons o os ih => simp [sessionRun, ih]

theorem session_reducer_step_witness :
    processRequest 5 (Operation.Div 5 0) = (5, (5, some "Wrong domain")) := by
  have h := (session_reducer_step 5 (Operation.Div 5 0) []).2.1
    OperationError.WrongDomain (by decide)
  simpa [errMessage] using h

/- ### Answer decoding (claim C2) -/

theorem tlvIterRun_nil_inv {buf : List Nat}
    (h : tlvIterRun buf = some []) :
    ∃ e, tlvTryFrom buf = some (.error e) := by
  unfold tlvIterRun at h
  cases hd : tlvTryFrom buf with
  | none => rw [hd] at h; exact absurd h (by simp)
  | some r =>
    cases r with
    | error e => exact ⟨e, rfl⟩
    | ok t =>
      rw [hd] at h
      simp only at h
      cases hr : tlvIterRun (buf.drop (2 + t.length)) with
      | none => rw [hr] at h; exact absurd h (by simp)
      | some ts => rw [hr] at h; exact absurd h (by simp)

theorem tlvIterRun_cons_inv {buf : List Nat} {t : Tlv} {ts : List Tlv}
    (h : tlvIterRun buf = some (t :: ts)) :
    tlvTryFrom buf = some (.ok t) ∧
      tlvIterRun (buf.drop (2 + t.length)) = some ts := by
  unfold tlvIterRun at h
  cases hd : tlvTryFrom buf with
  | none => rw [hd] at h; exact absurd h (by simp)
  | some r =>
    cases r with
    | error e => rw [hd] at h; exact absurd h (by simp)
    | ok u =>
      rw [hd] at h
      simp only at h
      cases hr : tlvIterRun (buf.drop (2 + u.length)) with
      | none => rw [hr] at h; exact absurd h (by simp)
      | some us =>
        rw [hr] at h
        simp only [Option.some_inj, List.cons.injEq] at h
        rw [← h.1, ← h.2]
        exact ⟨rfl, hr⟩

theorem answerLoop_stop {buf : List Nat} {m : Option (List Nat)}
    {a : Option Int} {e : TlvError}
    (h : tlvTryFrom buf = some (.error e)) :
    answerLoop buf m a = some (.ok (m, a)) := by
  unfold answerLoop
  rw [h]

theorem answerLoop_step_num {buf : List Nat} {m : Option (List Nat)}
    {a : Option Int} {t : Tlv} {v : Int}
    (h : tlvTryFrom buf = some (.ok t)) (ht : t.tag = TlvType.Numi64)
    (hv : numberi64TryFrom t = .ok v) :
    answerLoop buf m a = answerLoop (buf.drop (2 + t.length)) m (some v) := by
  conv_lhs => unfold answerLoop
  rw [h]
  simp only [ht, hv]

theorem answerLoop_step_inv {buf : List Nat} {m : Option (List Nat)}
    {a : Option Int} {t : Tlv} {mv : List Nat}
    (h : tlvTryFrom buf = some (.ok t)) (ht : t.tag = TlvType.Invalid)
    (hmv : invalidOperationTryFrom t = .ok mv) :
    answerLoop buf m a =
      answerLoop (buf.drop (2 + t.length)) (some mv) a := by
  conv_lhs => unfold answerLoop
  rw [h]
  simp only [ht, hmv]

theorem answerLoop_step_other {buf : List Nat} {m : Option (List Nat)}
    {a : Option Int} {t : Tlv}
    (h : tlvTryFrom buf = some (.ok t)) (ht1 : t.tag ≠ TlvType.Numi64)
    (ht2 : t.tag ≠ TlvType.Invalid) :
    answerLoop buf m a = answerLoop (buf.drop (2 + t.length)) m a := by
  conv_lhs => unfold answerLoop
  rw [h]
  obtain ⟨tag, len, data⟩ := t
  cases tag <;> simp_all

/-- The Numi64 sub-frame values of a frame sequence, in order. -/
def numsOf (fs : List Tlv) : List Int :=
  fs.filterMap fun f =>
    if f.tag = TlvType.Numi64 then some (i64FromBeBytes f.data) else none

/-- The Invalid sub-frame payloads of a frame sequence, in order. -/
def invsOf (fs : List Tlv) : List (List Nat) :=
  fs.filterMap fun f =>
    if f.tag = TlvType.Invalid then some f.data else none

/-- Well-formedness of a nested frame as needed by the Answer loop: a Numi64
frame carries exactly 8 bytes, an Invalid frame is non-empty valid UTF-8. -/
def AnswerFrameWF (f : Tlv) : Prop :=
  (f.tag = TlvType.Numi64 → f.length = 8 ∧ f.data.length = 8) ∧
  (f.tag = TlvType.Invalid → 0 < f.length ∧ isValidUtf8 f.data = true)

instance (f : Tlv) : Decidable (AnswerFrameWF f) := by
  unfold AnswerFrameWF
  infer_instance

theorem lastOr_cons {α : Type} (x : α) (l : List α) (d : Option α) :
    ((x :: l).getLast?).or d = (l.getLast?).or (some x) := by
  cases l with
  | nil => simp
  | cons y ys =>
    rw [List.getLast?_cons_cons]
    cases h : (y :: ys).getLast? with
    | none => exact absurd (List.getLast?_eq_none_iff.mp h) (by simp)
    | some z => simp

theorem answerLoop_spec (fs : List Tlv) :
    ∀ (buf : List Nat) (m : Option (List Nat)) (a : Option Int),
      tlvIterRun buf = some fs → (∀ f ∈ fs, AnswerFrameWF f) →
      answerLoop buf m a =
        some (.ok ((invsOf fs).getLast?.or m, (numsOf fs).getLast?.or a)) := by
  induction fs with
  | nil =>
    intro buf m a hit _
    obtain ⟨e, he⟩ := tlvIterRun_nil_inv hit
    rw [answerLoop_stop he]
    simp [invsOf, numsOf]
  | cons t ts ih =>
    intro buf m a hit hwf
    obtain ⟨h1, h2⟩ := tlvIterRun_cons_inv hit
    have hwft := hwf t (by simp)
    have hwfts : ∀ f ∈ ts, AnswerFrameWF f := fun f hf => hwf f (by simp [hf])
    by_cases ht : t.tag = TlvType.Numi64
    · have hnum := hwft.1 ht
      have hv : numberi64TryFrom t = .ok (i64FromBeBytes t.data) := by
        simp [numberi64TryFrom, ht, hnum.1, hnum.2]
      rw [answerLoop_step_num h1 ht hv, ih _ _ _ h2 hwfts]
      have hti : t.tag ≠ TlvType.Invalid := by rw [ht]; intro hc; cases hc
      simp [invsOf, numsOf, List.filterMap_cons, ht, hti, lastOr_cons]
    · by_cases ht2 : t.tag = TlvType.Invalid
      · have hinv := hwft.2 ht2
        have hmv : invalidOperationTryFrom t = .ok t.data := by
          simp [invalidOperationTryFrom, ht2, hinv.1, hinv.2]
        rw [answerLoop_step_inv h1 ht2 hmv, ih _ _ _ h2 hwfts]
        simp [invsOf, numsOf, List.filterMap_cons, ht, ht2, lastOr_cons]
      · rw [answerLoop_step_other h1 ht ht2, ih _ _ _ h2 hwfts]
        simp [invsOf, numsOf, List.filterMap_cons, ht, ht2]

/-- Claim C2 (amended): decoding an Answer container runs the sequential
reader over the payload; when every Numi64 sub-frame carries exactly 8 bytes
and every Invalid sub-frame is non-empty valid UTF-8, the result takes the
LAST Numi64 sub-frame as the accumulator and the LAST Invalid sub-frame as
the diagnostic, ignoring other tags, and fails with Generic when no Numi64
sub-frame is present. -/
theorem answer_decode_takes_last (t : Tlv) (fs : List Tlv)
    (htag : t.tag = TlvType.Answer) (hlen : 0 < t.length)
    (hiter : tlvIterRun t.data = some fs)
    (hwf : ∀ f ∈ fs, AnswerFrameWF f) :
    answerTryFrom t =
      match (numsOf fs).getLast? with
      | some v => some (.ok ⟨v, (invsOf fs).getLast?⟩)
      | none => some (.error .Generic) := by
  unfold answerTryFrom
  rw [if_pos ⟨htag, hlen⟩]
  rw [answerLoop_spec fs t.data none none hiter hwf]
  cases h : (numsOf fs).getLast? <;> simp [h, Option.or_none]

theorem answer_decode_takes_last_witness :
    answerTryFrom ⟨TlvType.Answer, 23,
      [11, 1, 69, 16, 8, 0, 0, 0, 0, 0, 0, 0, 1,
       16, 8, 0, 0, 0, 0, 0, 0, 0, 2]⟩ =
      some (.ok ⟨2, some [69]⟩) := by
  rw [answer_decode_takes_last _
    [⟨TlvType.Invalid, 1, [69]⟩,
     ⟨TlvType.Numi64, 8, [0, 0, 0, 0, 0, 0, 0, 1]⟩,
     ⟨TlvType.Numi64, 8, [0, 0, 0, 0, 0, 0, 0, 2]⟩]
    rfl (by decide) (by simp [tlvIterRun, tlvTryFrom, tagOfByte])
    (by decide)]
  simp [numsOf, invsOf, i64FromBeBytes]

/- ### Answer round trip (claim C9) -/

theorem tlvTryFrom_whole (t n : Nat) (payload : List Nat) (tag : TlvType)
    (htag : tagOfByte t = some tag) (hlen : payload.length = n)
    (hn : n ≤ 253) :
    tlvTryFrom (t :: n :: payload) = some (.ok ⟨tag, n, payload⟩) := by
  have h := tlvTryFrom_frame t n payload [] tag htag hlen hn
  simpa using h

theorem drop_whole (t n : Nat) (payload : List Nat)
    (hlen : payload.length = n) :
    (t :: n :: payload).drop (2 + n) = [] := by
  have h := drop_frame t n payload [] hlen
  simpa using h

theorem i64ToBeBytes_length (v : Int) : (i64ToBeBytes v).length = 8 := rfl

/-- A response representable on the wire: i64 accumulator, and a diagnostic
(when present) that is non-empty valid UTF-8 of at most 241 bytes, so that
the container length byte 12 + length stays clear of the u8 wrap-around in
the frame decoder. -/
def AnswerWF (a : Answer) : Prop :=
  -(2 ^ 63) ≤ a.acc ∧ a.acc < 2 ^ 63 ∧
  match a.message with
  | none => True
  | some m => m ≠ [] ∧ isValidUtf8 m = true ∧ m.length ≤ 241

instance (a : Answer) : Decidable (AnswerWF a) := by
  unfold AnswerWF
  cases a.message <;> infer_instance

/-- Claim C9 (amended): for every response with an i64 accumulator and an
optional non-empty UTF-8 diagnostic of at most 241 bytes, and both field
orderings, decoding the encoded container frame yields the response back. -/
theorem answer_encode_decode_roundtrip (a : Answer) (h : AnswerWF a)
    (order : AnswerOrder) :
    ∃ bs c, answerEncode a order = some bs ∧ tlvTryFrom bs = some (.ok c) ∧
      answerTryFrom c = some (.ok a) := by
  obtain ⟨acc, m?⟩ := a
  obtain ⟨ha1, ha2, hm⟩ := h
  have haccb : (i64ToBeBytes acc).length = 8 := rfl
  have hredec : i64FromBeBytes (i64ToBeBytes acc) = acc :=
    i64FromBeBytes_toBeBytes ha1 ha2
  have hnumdec :
      numberi64TryFrom ⟨TlvType.Numi64, 8, i64ToBeBytes acc⟩ =
        .ok acc := by
    simp [numberi64TryFrom, haccb, hredec]
  have haccenc : numberi64Encode acc = some (16 :: 8 :: i64ToBeBytes acc) := by
    unfold numberi64Encode Tlv.new
    rw [if_pos (show (i64ToBeBytes acc).length ≤ 255 by
      rw [i64ToBeBytes_length]; omega)]
    rfl
  have hstop : tlvTryFrom [] = some (.error .WrongFormat) := rfl
  cases m? with
  | none =>
    have hdata :
        answerEncode ⟨acc, none⟩ order =
          some (10 :: 10 :: (16 :: 8 :: i64ToBeBytes acc)) := by
      cases order <;>
        (unfold answerEncode
         simp only [haccenc]
         unfold Tlv.new
         simp only [List.nil_append, List.append_nil]
         rw [if_pos (show ((16 :: 8 :: i64ToBeBytes acc) : List Nat).length ≤
           255 by simp [i64ToBeBytes_length])]
         simp [Tlv.encode, TlvType.toByte, i64ToBeBytes_length])
    refine ⟨_, ⟨.Answer, 10, 16 :: 8 :: i64ToBeBytes acc⟩, hdata, ?_, ?_⟩
    · exact tlvTryFrom_whole 10 10 _ .Answer rfl (by simp [haccb]) (by omega)
    · unfold answerTryFrom
      rw [if_pos ⟨rfl, show 0 < 10 by omega⟩]
      rw [answerLoop_step_num
        (tlvTryFrom_whole 16 8 _ .Numi64 rfl haccb (by omega)) rfl hnumdec]
      rw [show ((16 :: 8 :: i64ToBeBytes acc).drop (2 + 8)) = [] from
        drop_whole 16 8 _ haccb]
      rw [answerLoop_stop hstop]
  | some m =>
    obtain ⟨hm1, hm2, hm3⟩ := hm
    have hmlen : 0 < m.length := List.length_pos.mpr hm1
    have hinvdec :
        invalidOperationTryFrom ⟨TlvType.Invalid, m.length, m⟩ = .ok m := by
      simp [invalidOperationTryFrom, hmlen, hm2]
    have hminv : invalidOperationEncode m = some (11 :: m.length :: m) := by
      unfold invalidOperationEncode Tlv.new
      rw [if_pos (show m.length ≤ 255 by omega)]
      rfl
    cases order with
    | MessageFirst =>
      have h255 :
          ((11 :: m.length :: m) ++ (16 :: 8 :: i64ToBeBytes acc)).length ≤
            255 := by
        simp [i64ToBeBytes_length]
        omega
      have hdata :
          answerEncode ⟨acc, some m⟩ .MessageFirst =
            some (10 :: (m.length + 12) ::
              (11 :: m.length :: (m ++ (16 :: 8 :: i64ToBeBytes acc)))) := by
        unfold answerEncode
        simp only [hminv, haccenc]
        unfold Tlv.new
        rw [if_pos h255]
        simp [Tlv.encode, TlvType.toByte, i64ToBeBytes_length]
      refine ⟨_, ⟨.Answer, m.length + 12,
        11 :: m.length :: (m ++ (16 :: 8 :: i64ToBeBytes acc))⟩,
        hdata, ?_, ?_⟩
      · exact tlvTryFrom_whole 10 (m.length + 12) _ .Answer rfl
          (by simp [haccb]; try omega) (by omega)
      · unfold answerTryFrom
        rw [if_pos ⟨rfl, show 0 < m.length + 12 by omega⟩]
        rw [answerLoop_step_inv
          (tlvTryFrom_frame 11 m.length m _ .Invalid rfl rfl (by omega))
          rfl hinvdec]
        rw [show ((11 :: m.length ::
            (m ++ (16 :: 8 :: i64ToBeBytes acc))).drop (2 + m.length)) =
            16 :: 8 :: i64ToBeBytes acc from drop_frame 11 m.length m _ rfl]
        rw [answerLoop_step_num
          (tlvTryFrom_whole 16 8 _ .Numi64 rfl haccb (by omega)) rfl hnumdec]
        rw [show ((16 :: 8 :: i64ToBeBytes acc).drop (2 + 8)) = [] from
          drop_whole 16 8 _ haccb]
        rw [answerLoop_stop hstop]
    | MessageLast =>
      have h255 :
          ((16 :: 8 :: i64ToBeBytes acc) ++ (11 :: m.length :: m)).length ≤
            255 := by
        simp [i64ToBeBytes_length]
        omega
      have hdata :
          answerEncode ⟨acc, some m⟩ .MessageLast =
            some (10 :: (m.length + 12) ::
              (16 :: 8 :: (i64ToBeBytes acc ++ (11 :: m.length :: m)))) := by
        unfold answerEncode
        simp only [hminv, haccenc]
        unfold Tlv.new
        rw [if_pos h255]
        simp [Tlv.encode, TlvType.toByte, i64ToBeBytes_length]
        omega
      refine ⟨_, ⟨.Answer, m.length + 12,
        16 :: 8 :: (i64ToBeBytes acc ++ (11 :: m.length :: m))⟩,
        hdata, ?_, ?_⟩
      · exact tlvTryFrom_whole 10 (m.length + 12) _ .Answer rfl
          (by simp [haccb]; try omega) (by omega)
      · unfold answerTryFrom
        rw [if_pos ⟨rfl, show 0 < m.length + 12 by omega⟩]
        rw [answerLoop_step_num
          (tlvTryFrom_frame 16 8 _ _ .Numi64 rfl haccb (by omega))
          rfl hnumdec]
        rw [show ((16 :: 8 ::
            (i64ToBeBytes acc ++ (11 :: m.length :: m))).drop (2 + 8)) =
            11 :: m.length :: m from drop_frame 16 8 _ _ haccb]
        rw [answerLoop_step_inv
          (tlvTryFrom_whole 11 m.length m .Invalid rfl rfl (by omega))
          rfl hinvdec]
        rw [show ((11 :: m.length :: m).drop (2 + m.length)) = [] from
          drop_whole 11 m.length m rfl]
        rw [answerLoop_stop hstop]

theorem answer_encode_decode_roundtrip_witness :
    (∃ bs c,
      answerEncode ⟨-7, some [98, 97, 100]⟩ .MessageFirst = some bs ∧
      tlvTryFrom bs = some (.ok c) ∧
      answerTryFrom c = some (.ok ⟨-7, some [98, 97, 100]⟩)) ∧
    (∃ bs c,
      answerEncode ⟨-7, some [98, 97, 100]⟩ .MessageLast = some bs ∧
      tlvTryFrom bs = some (.ok c) ∧
      answerTryFrom c = some (.ok ⟨-7, some [98, 97, 100]⟩)) :=
  ⟨answer_encode_decode_roundtrip ⟨-7, some [98, 97, 100]⟩ (by decide)
      .MessageFirst,
   answer_encode_decode_roundtrip ⟨-7, some [98, 97, 100]⟩ (by decide)
      .MessageLast⟩

set_option maxRecDepth 10000 in
/-- Claim C9 (counterexample to the claim as stated): a response with a
242-byte diagnostic is a valid response in the sense of the claim (i64
accumulator, non-empty UTF-8 diagnostic), yet its encoding is a container
with length byte 254, whose decoding panics on the wrapped u8 length
arithmetic; with a 244-byte diagnostic the encoder itself panics on the
unwrap of Tlv::new.  Either way decode(encode(r, order)) is not r. -/
theorem answer_roundtrip_cex :
    (answerEncode ⟨0, some (List.replicate 242 97)⟩ .MessageFirst).map
        tlvTryFrom = some none ∧
    answerEncode ⟨0, some (List.replicate 244 97)⟩ .MessageFirst = none := by
  decide

/- ### Text parsing arity errors (claim C7) -/

/-- Claim C7 (amended): when the input matches the grammar but the operand
arity is wrong — the second operand missing for a binary operator, or
present for factorial — and the operand literals parse as i8, parsing fails
with the unsupported-operation error carrying the operator symbol, not with
the generic parse error: the guarded dispatch arms all fail and control
falls through to the UnsupportedOperation arm. -/
theorem from_str_arity_mismatch (s g1 : List Char) (c : Char)
    (g3 : Option (List Char)) (a : Int)
    (hcap : regexCaptures s = some (g1, c, g3))
    (ha : parseI8 g1 = .ok a)
    (harity : (isOpChar c = true ∧ c ≠ '!' ∧ g3 = none) ∨
      (c = '!' ∧ g3 ≠ none))
    (hb : ∀ gb, g3 = some gb → ∃ b, parseI8 gb = .ok b) :
    operationFromStr s = .error (.UnsupportedOperation (String.mk [c])) := by
  unfold operationFromStr
  rw [hcap]
  simp only
  rw [ha]
  rcases harity with ⟨_, hne, rfl⟩ | ⟨rfl, hg3⟩
  · simp [dispatchOp, hne]
  · cases g3 with
    | none => exact absurd rfl hg3
    | some gb =>
      obtain ⟨b, hbb⟩ := hb gb rfl
      simp only
      rw [hbb]
      simp [dispatchOp]

theorem from_str_arity_mismatch_witness :
    operationFromStr ['5', '+'] =
      .error (.UnsupportedOperation "+") :=
  from_str_arity_mismatch ['5', '+'] ['5'] '+' none 5 (by decide) (by decide)
    (Or.inl ⟨by decide, by decide, rfl⟩) (fun gb h => nomatch h)

/-- Claim C7 (counterexample to the claim as stated): the inputs 5+ (binary
operator, missing second operand) and 3!4 (factorial with a second operand)
match the grammar with wrong arity, yet parsing returns the
unsupported-operation error carrying the operator, not the claimed generic
parse error. -/
theorem from_str_arity_cex :
    operationFromStr ['5', '+'] = .error (.UnsupportedOperation "+") ∧
    operationFromStr ['5', '+'] ≠ .error .Parse ∧
    operationFromStr ['3', '!', '4'] =
      .error (.UnsupportedOperation "!") := by
  decide

/-- Claim C2 (counterexample to the claim as stated): a container holding
the Numi64 sub-frames 1 and 2 in that order decodes to accumulator 2, the
last one, not the first one. -/
theorem answer_decode_first_cex :
    answerTryFrom ⟨TlvType.Answer, 20,
      [16, 8, 0, 0, 0, 0, 0, 0, 0, 1, 16, 8, 0, 0, 0, 0, 0, 0, 0, 2]⟩ =
      some (.ok ⟨2, none⟩) ∧
    answerTryFrom ⟨TlvType.Answer, 20,
      [16, 8, 0, 0, 0, 0, 0, 0, 0, 1, 16, 8, 0, 0, 0, 0, 0, 0, 0, 2]⟩ ≠
      some (.ok ⟨1, none⟩) := by
  have h1 : answerTryFrom ⟨TlvType.Answer, 20,
      [16, 8, 0, 0, 0, 0, 0, 0, 0, 1, 16, 8, 0, 0, 0, 0, 0, 0, 0, 2]⟩ =
      some (.ok ⟨2, none⟩) := by
    simp [answerTryFrom, answerLoop, tlvTryFrom, tagOfByte,
      numberi64TryFrom, i64FromBeBytes]
  exact ⟨h1, by rw [h1]; decide⟩
